import Mathlib

/-!
Shallow embedding of the CasADi node layer covered by the spec: the
`Reshape` node (from `src/casadi/core/mx/reshape.cpp`) and the `SubRef`
node (whose implementation is not in the sources; only its declaration
`subref.hpp` is, so its behaviour is modelled from the spec).

Matrix buffers are lists of values; symbolic expressions are a small
uninterpreted expression type; pointer aliasing (input[0]==output[0]) is
an explicit boolean flag, since Lean values have no identity.
-/

namespace Casadi

/-- A sparsity pattern, per the spec an opaque value object exposing a
nonzero count and per-dimension extents. -/
structure Sparsity where
  nrow : Nat
  ncol : Nat
  nnz : Nat
deriving DecidableEq, Repr

/-- Modelled from the spec: a range selector with start/stop/step
semantics over one axis (`Slice` in `subref.hpp`; its definition is not
in the sources). -/
structure Slice where
  start : Nat
  stop : Nat
  step : Nat
deriving DecidableEq, Repr

/-- Modelled from the spec: the selector "enumerable as an ordered
sequence of indices": the indices `start, start+step, ...` below `stop`
(for a positive step), in increasing order. -/
def Slice.indices (s : Slice) : List Nat :=
  (List.range s.stop).filter (fun r => s.start ≤ r ∧ (r - s.start) % s.step = 0)

/-- The `Reshape` node: one dependency (abstracted to its sparsity) and
its own sparsity pattern. -/
structure Reshape where
  dep : Sparsity
  sp : Sparsity
deriving DecidableEq, Repr

/-- `Reshape::Reshape(x, sp)`: `casadi_assert(x.nnz()==sp.nnz())`, then
the node's dependency is `x` and its sparsity is `sp`.  The failing
assertion is modelled as `none`. -/
def Reshape.make (x : Sparsity) (sp : Sparsity) : Option Reshape :=
  if x.nnz = sp.nnz then some ⟨x, sp⟩ else none

/-- `Reshape::evaluateGen` (the template shared by `evaluateD` and
`evaluateSX`): quick return if inplace, else copy the first `nnz()`
values of the input buffer to the front of the output buffer.  Returns
the (input, output) buffers after the call. -/
def Reshape.evaluateGen {T : Type} (n : Nat) (inplace : Bool)
    (arg res : List T) : List T × List T :=
  if inplace then (arg, res)
  else (arg, arg.take n ++ res.drop n)

/-- `Reshape::propagateSparsity`: quick return if inplace; forward,
copy the `arg.size()` input tag words over the output; backward, OR each
output tag word into the input one and zero it.  Tag words are `Nat`
bit masks (`bvec_t`). -/
def Reshape.propagateSparsity (inplace fwd : Bool)
    (arg res : List Nat) : List Nat × List Nat :=
  if inplace then (arg, res)
  else if fwd then (arg, arg ++ res.drop arg.length)
  else (arg.mapIdx (fun k a => a ||| res.getD k 0),
        res.mapIdx (fun k r => if k < arg.length then 0 else r))

/-- Modelled from the spec: symbolic matrix expressions (`MX`).  The
expression-builder API is out of scope of the spec, so the builder
function `reshape(x, shape)` is an uninterpreted constructor, the
default-constructed `MX()` is `empty`, and addition is `plus`. -/
inductive MX where
  | empty : MX
  | var : Nat → MX
  | reshape : MX → Nat → Nat → MX
  | plus : MX → MX → MX
deriving DecidableEq, Repr

/-- Modelled from the spec: `MX::addToSum` accumulates (sums) a new
contribution into a sensitivity slot rather than overwriting it. -/
def MX.addToSum (this x : MX) : MX := MX.plus this x

/-- The argument slots of one `evaluateMX` invocation: the dependency's
sub-expression, the output sub-expression, one seed and one sensitivity
slot per forward/adjoint direction, the `output_given` flag, and the
pointer-equality flag `inplace` standing for `input[0]==output[0]`. -/
structure MXArgs where
  input : MX
  output : MX
  fwdSeed : List MX
  fwdSens : List MX
  adjSeed : List MX
  adjSens : List MX
  outputGiven : Bool
  inplace : Bool
deriving DecidableEq, Repr

/-- `Reshape::evaluateMX`: quick return if inplace; else write the
output (unless given) as `reshape(input, shape())`; for each forward
direction `d < fwdSens.size()` write
`fwdSens[d] := reshape(fwdSeed[d], shape())`; for each adjoint direction
`d < adjSeed.size()` accumulate `reshape(adjSeed[d], dep().shape())`
into `adjSens[d]` and clear `adjSeed[d]` to `MX()`. -/
def Reshape.evaluateMX (node : Reshape) (a : MXArgs) : MXArgs :=
  if a.inplace then a
  else
    { a with
      output :=
        if a.outputGiven then a.output
        else MX.reshape a.input node.sp.nrow node.sp.ncol,
      fwdSens := a.fwdSens.mapIdx (fun d _ =>
        MX.reshape (a.fwdSeed.getD d MX.empty) node.sp.nrow node.sp.ncol),
      adjSens := a.adjSens.mapIdx (fun d s =>
        if d < a.adjSeed.length then
          s.addToSum (MX.reshape (a.adjSeed.getD d MX.empty)
            node.dep.nrow node.dep.ncol)
        else s),
      adjSeed := a.adjSeed.map (fun _ => MX.empty) }

/-- Dot product of two numeric buffers. -/
def dot (u w : List ℚ) : ℚ := (List.zipWith (fun a b => a * b) u w).sum

/-- The numeric forward-sensitivity map of `Reshape`: the same
structural transform as the primal operation, i.e. `evaluateGen`'s copy
into a fresh zero buffer. -/
def Reshape.fwdMap (n : Nat) (u : List ℚ) : List ℚ :=
  (Reshape.evaluateGen n false u (List.replicate n 0)).2

/-- The numeric adjoint map of `Reshape`: reshape-back to the
dependency's pattern, again `evaluateGen`'s copy (same nonzero count). -/
def Reshape.adjMap (n : Nat) (w : List ℚ) : List ℚ :=
  (Reshape.evaluateGen n false w (List.replicate n 0)).2

namespace SubRef

/-- Modelled from the spec: the flattened (column-major, position
`r + c*nrow`) positions of the dependency lying inside the block
addressed by the row selector `i` and the column selector `j`, in the
block's own order. -/
def indices (i j : Slice) (nrow ncol : Nat) : List Nat :=
  (List.range (nrow * ncol)).filter
    (fun p => p % nrow ∈ i.indices ∧ p / nrow ∈ j.indices)

/-- Modelled from the spec: `SubRef`'s numeric/forward transform is a
gather of the dependency's nonzero values lying inside the addressed
block. -/
def fwdMap (i j : Slice) (nrow ncol : Nat) (u : List ℚ) : List ℚ :=
  (indices i j nrow ncol).map (fun p => u.getD p 0)

/-- Place the entries of `w` at the positions `idx` of a zero-filled
buffer of length `n`. -/
def scatterAt (n : Nat) : List Nat → List ℚ → List ℚ
  | k :: t, x :: ws => (scatterAt n t ws).set k x
  | _, _ => List.replicate n 0

/-- Modelled from the spec: `SubRef`'s adjoint transform is a scatter
of the block-shaped adjoint seed into a dependency-shaped
zero-initialized value at the positions denoted by the two selectors. -/
def adjMap (i j : Slice) (nrow ncol : Nat) (w : List ℚ) : List ℚ :=
  scatterAt (nrow * ncol) (indices i j nrow ncol) w

/-- Modelled from the spec: `SubRef`'s numeric evaluation on a dense
dependency given as a list of rows: the rectangular sub-block addressed
by the row selector `i` and the column selector `j`, in the block's own
order. -/
def subMatrix (m : List (List ℚ)) (i j : Slice) : List (List ℚ) :=
  i.indices.map (fun r => j.indices.map (fun c => (m.getD r []).getD c 0))

end SubRef

end Casadi

namespace Casadi

/-! ### Theorems -/

/-- Helper: reading a `mapIdx` result at an in-range position. -/
theorem getD_mapIdx_of_lt {α β : Type} (l : List α) (f : Nat → α → β)
    (i : Nat) (dfl : β) (dfl' : α) (h : i < l.length) :
    (l.mapIdx f).getD i dfl = f i (l.getD i dfl') := by
  rw [List.getD_eq_getElem _ _ (by simpa using h), List.getElem_mapIdx,
    List.getD_eq_getElem _ _ h]

/-- C4: `Reshape` construction fails exactly when the nonzero counts of
the dependency and the target pattern differ; on success the node's own
sparsity is the target pattern. -/
theorem reshape_make_spec (x sp : Sparsity) :
    (x.nnz ≠ sp.nnz → Reshape.make x sp = none) ∧
    (x.nnz = sp.nnz → ∃ node, Reshape.make x sp = some node ∧ node.sp = sp) := by
  constructor
  · intro h
    simp [Reshape.make, h]
  · intro h
    exact ⟨⟨x, sp⟩, by simp [Reshape.make, h], rfl⟩

theorem reshape_make_spec_witness :
    Reshape.make ⟨2, 3, 6⟩ ⟨2, 2, 4⟩ = none ∧
    (∃ node, Reshape.make ⟨2, 3, 6⟩ ⟨3, 2, 6⟩ = some node ∧
      node.sp = ⟨3, 2, 6⟩) :=
  ⟨(reshape_make_spec ⟨2, 3, 6⟩ ⟨2, 2, 4⟩).1 (by decide),
   (reshape_make_spec ⟨2, 3, 6⟩ ⟨3, 2, 6⟩).2 (by decide)⟩

/-- C3: with distinct buffers, `evaluateGen` leaves the input buffer
unchanged, writes the first `nnz` values of the input buffer into the
first `nnz` slots of the output buffer in positional order, and leaves
the rest of the output buffer unchanged.  The statement is generic in
the scalar type, covering numeric (`evaluateD`) and symbolic-scalar
(`evaluateSX`) evaluation alike. -/
theorem reshape_evaluateGen_copies {α : Type} (d : α) (n : Nat)
    (arg res : List α) (hn : n ≤ arg.length) :
    (Reshape.evaluateGen n false arg res).1 = arg ∧
    (∀ k, k < n →
      (Reshape.evaluateGen n false arg res).2.getD k d = arg.getD k d) ∧
    (∀ k, n ≤ k →
      (Reshape.evaluateGen n false arg res).2.getD k d = res.getD k d) := by
  have hout : (Reshape.evaluateGen n false arg res).2
      = arg.take n ++ res.drop n := rfl
  have htk : (arg.take n).length = n := by
    simp [List.length_take]
    omega
  refine ⟨rfl, ?_, ?_⟩
  · intro k hk
    rw [hout, List.getD_append _ _ _ _ (by omega), List.getD_eq_getElem _ _ (by omega),
      List.getElem_take, List.getD_eq_getElem _ _ (by omega)]
  · intro k hk
    rw [hout, List.getD_append_right _ _ _ _ (by omega), htk]
    by_cases hkr : k < res.length
    · rw [List.getD_eq_getElem _ _ (by simp [List.length_drop]; omega),
        List.getElem_drop, List.getD_eq_getElem _ _ (by omega)]
      congr 1
      omega
    · rw [List.getD_eq_default _ _ (by simp [List.length_drop]; omega),
        List.getD_eq_default _ _ (by omega)]

theorem reshape_evaluateGen_copies_witness :
    (Reshape.evaluateGen 6 false [1, 2, 3, 4, 5, 6] ([0, 0, 0, 0, 0, 0] : List ℚ)).1
      = [1, 2, 3, 4, 5, 6] ∧
    (Reshape.evaluateGen 6 false [1, 2, 3, 4, 5, 6]
      ([0, 0, 0, 0, 0, 0] : List ℚ)).2.getD 2 0
      = ([1, 2, 3, 4, 5, 6] : List ℚ).getD 2 0 :=
  ⟨(reshape_evaluateGen_copies 0 6 [1, 2, 3, 4, 5, 6] [0, 0, 0, 0, 0, 0]
      (by decide)).1,
   (reshape_evaluateGen_copies 0 6 [1, 2, 3, 4, 5, 6] [0, 0, 0, 0, 0, 0]
      (by decide)).2.1 2 (by decide)⟩

/-- C5: when the output buffer is the input buffer (in-place aliasing),
`evaluateGen` returns immediately and the shared buffer is left
unchanged; generic in the scalar type, so it covers numeric and
symbolic-scalar evaluation. -/
theorem reshape_evaluateGen_inplace {α : Type} (n : Nat) (buf : List α) :
    Reshape.evaluateGen n true buf buf = (buf, buf) := by
  simp [Reshape.evaluateGen]

/-- C10: when the input expression slot aliases the output slot,
`evaluateMX` returns at once: the output, all forward-sensitivity
slots, all adjoint-sensitivity slots and all adjoint-seed slots are
left exactly as passed in, even with `output_given = false`. -/
theorem reshape_evaluateMX_inplace (node : Reshape) (a : MXArgs)
    (h : a.inplace = true) : node.evaluateMX a = a := by
  simp [Reshape.evaluateMX, h]

theorem reshape_evaluateMX_inplace_witness :
    Reshape.evaluateMX ⟨⟨2, 3, 6⟩, ⟨3, 2, 6⟩⟩
      ⟨MX.var 0, MX.var 0, [MX.var 1], [MX.var 2], [MX.var 3],
        [MX.var 4], false, true⟩
    = ⟨MX.var 0, MX.var 0, [MX.var 1], [MX.var 2], [MX.var 3],
        [MX.var 4], false, true⟩ :=
  reshape_evaluateMX_inplace ⟨⟨2, 3, 6⟩, ⟨3, 2, 6⟩⟩ _ rfl

/-- C6: with distinct input/output slots, `evaluateMX` sets each
forward-sensitivity slot `d < nfwd` to exactly the reshape of the
corresponding forward seed to the node's own shape. -/
theorem reshape_evaluateMX_fwd (node : Reshape) (a : MXArgs)
    (hip : a.inplace = false) (d : Nat) (hd : d < a.fwdSens.length) :
    (node.evaluateMX a).fwdSens.getD d MX.empty
      = MX.reshape (a.fwdSeed.getD d MX.empty) node.sp.nrow node.sp.ncol := by
  have hout : (node.evaluateMX a).fwdSens
      = a.fwdSens.mapIdx (fun d _ =>
          MX.reshape (a.fwdSeed.getD d MX.empty) node.sp.nrow node.sp.ncol) := by
    simp [Reshape.evaluateMX, hip]
  rw [hout, List.getD_eq_getElem _ _ (by simp [List.length_mapIdx]; omega),
    List.getElem_mapIdx]

theorem reshape_evaluateMX_fwd_witness :
    (Reshape.evaluateMX ⟨⟨2, 3, 6⟩, ⟨3, 2, 6⟩⟩
      ⟨MX.var 0, MX.empty, [MX.var 1], [MX.var 2], [], [], false,
        false⟩).fwdSens.getD 0 MX.empty
      = MX.reshape (MX.var 1) 3 2 :=
  reshape_evaluateMX_fwd ⟨⟨2, 3, 6⟩, ⟨3, 2, 6⟩⟩ _ rfl 0 (by decide)

/-- C1: with distinct input/output slots, for each adjoint direction
`d < nadj` `evaluateMX` accumulates (sums, rather than overwrites) the
adjoint seed reshaped back to the dependency's shape into the adjoint
sensitivity slot, and then overwrites the consumed adjoint seed slot
with the empty expression `MX()`. -/
theorem reshape_evaluateMX_adj (node : Reshape) (a : MXArgs)
    (hip : a.inplace = false) (d : Nat) (hd : d < a.adjSeed.length)
    (hlen : a.adjSeed.length ≤ a.adjSens.length) :
    (node.evaluateMX a).adjSens.getD d MX.empty
      = (a.adjSens.getD d MX.empty).addToSum
          (MX.reshape (a.adjSeed.getD d MX.empty)
            node.dep.nrow node.dep.ncol) ∧
    (node.evaluateMX a).adjSeed.getD d MX.empty = MX.empty := by
  have hsens : (node.evaluateMX a).adjSens
      = a.adjSens.mapIdx (fun d s =>
          if d < a.adjSeed.length then
            s.addToSum (MX.reshape (a.adjSeed.getD d MX.empty)
              node.dep.nrow node.dep.ncol)
          else s) := by
    simp [Reshape.evaluateMX, hip]
  have hseed : (node.evaluateMX a).adjSeed
      = a.adjSeed.map (fun _ => MX.empty) := by
    simp [Reshape.evaluateMX, hip]
  constructor
  · rw [hsens, getD_mapIdx_of_lt _ _ _ MX.empty MX.empty (by omega)]
    simp only [hd, if_true]
  · rw [hseed, List.getD_eq_getElem _ _ (by simp; omega), List.getElem_map]

theorem reshape_evaluateMX_adj_witness :
    (Reshape.evaluateMX ⟨⟨2, 3, 6⟩, ⟨3, 2, 6⟩⟩
      ⟨MX.var 0, MX.empty, [], [], [MX.var 3], [MX.var 4], false,
        false⟩).adjSens.getD 0 MX.empty
      = (MX.var 4).addToSum (MX.reshape (MX.var 3) 2 3) ∧
    (Reshape.evaluateMX ⟨⟨2, 3, 6⟩, ⟨3, 2, 6⟩⟩
      ⟨MX.var 0, MX.empty, [], [], [MX.var 3], [MX.var 4], false,
        false⟩).adjSeed.getD 0 MX.empty = MX.empty :=
  reshape_evaluateMX_adj ⟨⟨2, 3, 6⟩, ⟨3, 2, 6⟩⟩ _ rfl 0 (by decide) (by decide)

/-- C7: with distinct tag buffers, forward sparsity propagation copies
the dependency's tag bits positionally into the output buffer — the
output tag sequence afterwards equals the input tag sequence — and
leaves the input tag bits unchanged. -/
theorem reshape_propagateSparsity_fwd (arg res : List Nat)
    (hlen : res.length = arg.length) :
    Reshape.propagateSparsity false true arg res = (arg, arg) := by
  simp [Reshape.propagateSparsity, List.drop_eq_nil_of_le (le_of_eq hlen)]

theorem reshape_propagateSparsity_fwd_witness :
    Reshape.propagateSparsity false true [1, 2, 4] [0, 7, 0] = ([1, 2, 4], [1, 2, 4]) :=
  reshape_propagateSparsity_fwd [1, 2, 4] [0, 7, 0] (by decide)

/-- C8: with distinct tag buffers, backward sparsity propagation ORs
each output tag bit into the corresponding dependency tag bit
(accumulating, never overwriting) and afterwards every output tag bit
is zero. -/
theorem reshape_propagateSparsity_adj (arg res : List Nat)
    (hlen : res.length = arg.length) :
    (∀ k, k < arg.length →
      (Reshape.propagateSparsity false false arg res).1.getD k 0
        = (arg.getD k 0) ||| (res.getD k 0)) ∧
    (∀ k, (Reshape.propagateSparsity false false arg res).2.getD k 0 = 0) := by
  constructor
  · intro k hk
    have h1 : (Reshape.propagateSparsity false false arg res).1
        = arg.mapIdx (fun k a => a ||| res.getD k 0) := rfl
    rw [h1, List.getD_eq_getElem _ _ (by simp [List.length_mapIdx]; omega),
      List.getElem_mapIdx, List.getD_eq_getElem _ _ hk]
  · intro k
    have h2 : (Reshape.propagateSparsity false false arg res).2
        = res.mapIdx (fun k r => if k < arg.length then 0 else r) := rfl
    by_cases hk : k < res.length
    · rw [h2, List.getD_eq_getElem _ _ (by simp [List.length_mapIdx]; omega),
        List.getElem_mapIdx]
      simp
      omega
    · rw [h2, List.getD_eq_default _ _ (by simp [List.length_mapIdx]; omega)]

/-- Helper: a zero-filled buffer contributes nothing to a dot product. -/
theorem dot_replicate_zero (u : List ℚ) (n : Nat) :
    dot u (List.replicate n 0) = 0 := by
  induction u generalizing n with
  | nil => simp [dot]
  | cons a u ih =>
    cases n with
    | zero => simp [dot]
    | succ m =>
      have h := ih m
      simp [dot, List.replicate_succ] at h ⊢
      exact h

/-- Helper: unfolding the dot product of two cons cells. -/
theorem dot_cons (a b : ℚ) (u w : List ℚ) :
    dot (a :: u) (b :: w) = a * b + dot u w := by
  simp [dot]

/-- Helper: setting a position that held zero adds one product term to
the dot product. -/
theorem dot_set (u : List ℚ) : ∀ (v : List ℚ) (k : Nat) (x : ℚ),
    k < v.length → v.getD k 0 = 0 →
    dot u (v.set k x) = dot u v + u.getD k 0 * x := by
  induction u with
  | nil => intro v k x _ _; simp [dot]
  | cons a u ih =>
    intro v k x hk hv
    cases v with
    | nil => simp at hk
    | cons b vt =>
      cases k with
      | zero =>
        have hb : b = 0 := by simpa using hv
        simp [dot, hb]
        ring
      | succ m =>
        have hk' : m < vt.length := by simpa using hk
        have hv' : vt.getD m 0 = 0 := by simpa using hv
        rw [List.set_cons_succ, dot_cons, dot_cons, ih vt m x hk' hv']
        have hgd : (a :: u).getD (m + 1) 0 = u.getD m 0 := rfl
        rw [hgd]
        ring

/-- Helper: a scatter always yields a buffer of the target length. -/
theorem length_scatterAt (n : Nat) : ∀ (idx : List Nat) (w : List ℚ),
    (SubRef.scatterAt n idx w).length = n := by
  intro idx
  induction idx with
  | nil => intro w; simp [SubRef.scatterAt]
  | cons k t ih =>
    intro w
    cases w with
    | nil => simp [SubRef.scatterAt]
    | cons x ws => simp [SubRef.scatterAt, ih]

/-- Helper: positions outside the scatter index list stay zero. -/
theorem getD_scatterAt_of_notMem (n : Nat) : ∀ (idx : List Nat)
    (w : List ℚ) (k : Nat), k ∉ idx →
    (SubRef.scatterAt n idx w).getD k 0 = 0 := by
  intro idx
  induction idx with
  | nil =>
    intro w k _
    rw [show SubRef.scatterAt n [] w = List.replicate n 0 from rfl]
    by_cases h : k < n
    · rw [List.getD_eq_getElem _ _ (by simpa using h), List.getElem_replicate]
    · rw [List.getD_eq_default _ _ (by simpa using not_lt.mp h)]
  | cons i t ih =>
    intro w k hk
    have hki : k ≠ i := fun h => hk (by simp [h])
    have hkt : k ∉ t := fun h => hk (by simp [h])
    cases w with
    | nil =>
      rw [show SubRef.scatterAt n (i :: t) [] = List.replicate n 0 from rfl]
      by_cases h : k < n
      · rw [List.getD_eq_getElem _ _ (by simpa using h), List.getElem_replicate]
      · rw [List.getD_eq_default _ _ (by simpa using not_lt.mp h)]
    | cons x ws =>
      rw [show SubRef.scatterAt n (i :: t) (x :: ws)
          = (SubRef.scatterAt n t ws).set i x from rfl]
      by_cases h : k < n
      · rw [List.getD_eq_getElem _ _
          (by simp [List.length_set, length_scatterAt]; exact h)]
        rw [List.getElem_set_ne (by omega)]
        rw [← List.getD_eq_getElem _ 0 (by simp [length_scatterAt]; exact h)]
        exact ih ws k hkt
      · rw [List.getD_eq_default _ _
          (by simp [List.length_set, length_scatterAt]; omega)]

/-- Helper: the adjoint identity for an arbitrary gather/scatter pair
over a duplicate-free, in-bounds index list. -/
theorem dot_gather_scatter (n : Nat) : ∀ (idx : List Nat) (u w : List ℚ),
    idx.Nodup → (∀ k ∈ idx, k < n) → w.length = idx.length →
    dot (idx.map (fun k => u.getD k 0)) w = dot u (SubRef.scatterAt n idx w) := by
  intro idx
  induction idx with
  | nil =>
    intro u w _ _ hw
    rw [List.eq_nil_of_length_eq_zero hw]
    rw [show SubRef.scatterAt n [] [] = List.replicate n 0 from rfl,
      dot_replicate_zero]
    rfl
  | cons k t ih =>
    intro u w hnd hb hw
    cases w with
    | nil => simp at hw
    | cons x ws =>
      have hknt : k ∉ t := (List.nodup_cons.mp hnd).1
      have hndt : t.Nodup := (List.nodup_cons.mp hnd).2
      have hkn : k < n := hb k (List.mem_cons_self k t)
      have hbt : ∀ p ∈ t, p < n := fun p hp => hb p (List.mem_cons_of_mem k hp)
      have hwt : ws.length = t.length := by simpa using hw
      rw [show SubRef.scatterAt n (k :: t) (x :: ws)
          = (SubRef.scatterAt n t ws).set k x from rfl]
      rw [show List.map (fun p => u.getD p 0) (k :: t)
          = u.getD k 0 :: List.map (fun p => u.getD p 0) t from rfl]
      rw [dot_cons, dot_set u _ k x (by rw [length_scatterAt]; exact hkn)
        (getD_scatterAt_of_notMem n t ws k hknt)]
      rw [ih u ws hndt hbt hwt]
      ring

/-- Helper: `Reshape`'s numeric structural transform is the identity on
a buffer of matching length. -/
theorem reshape_fwdMap_eq (n : Nat) (u : List ℚ) (h : u.length = n) :
    Reshape.fwdMap n u = u := by
  subst h
  simp [Reshape.fwdMap, Reshape.evaluateGen]

/-- Helper: the block position list of `SubRef` has no duplicates. -/
theorem subref_indices_nodup (i j : Slice) (nrow ncol : Nat) :
    (SubRef.indices i j nrow ncol).Nodup :=
  List.Nodup.filter _ (List.nodup_range _)

/-- Helper: the block position list of `SubRef` is in bounds. -/
theorem subref_indices_lt (i j : Slice) (nrow ncol : Nat) :
    ∀ p ∈ SubRef.indices i j nrow ncol, p < nrow * ncol := by
  intro p hp
  exact List.mem_range.mp (List.mem_filter.mp hp).1

theorem reshape_propagateSparsity_adj_witness :
    (Reshape.propagateSparsity false false [1, 2] [4, 1]).1.getD 0 0
      = (([1, 2] : List Nat).getD 0 0) ||| (([4, 1] : List Nat).getD 0 0) ∧
    (Reshape.propagateSparsity false false [1, 2] [4, 1]).2.getD 1 0 = 0 :=
  ⟨(reshape_propagateSparsity_adj [1, 2] [4, 1] (by decide)).1 0 (by decide),
   (reshape_propagateSparsity_adj [1, 2] [4, 1] (by decide)).2 1⟩

end Casadi

namespace Casadi

/-- C2: the adjoint identity `⟨forward_sensitivity, adjoint_seed⟩ =
⟨forward_seed, adjoint_sensitivity⟩` holds for both node kinds: for
`Reshape`, whose structural transform is the positional copy of
`evaluateGen`, and for `SubRef`, whose forward transform gathers the
block positions and whose adjoint transform scatters into a zero-filled
dependency-shaped buffer. -/
theorem adjoint_identity (n : Nat) (ur wr : List ℚ)
    (hur : ur.length = n) (hwr : wr.length = n)
    (i j : Slice) (nrow ncol : Nat) (u w : List ℚ)
    (hw : w.length = (SubRef.indices i j nrow ncol).length) :
    dot (Reshape.fwdMap n ur) wr = dot ur (Reshape.adjMap n wr) ∧
    dot (SubRef.fwdMap i j nrow ncol u) w
      = dot u (SubRef.adjMap i j nrow ncol w) := by
  constructor
  · rw [reshape_fwdMap_eq n ur hur,
      show Reshape.adjMap n wr = Reshape.fwdMap n wr from rfl,
      reshape_fwdMap_eq n wr hwr]
  · unfold SubRef.fwdMap SubRef.adjMap
    exact dot_gather_scatter (nrow * ncol) (SubRef.indices i j nrow ncol) u w
      (subref_indices_nodup i j nrow ncol) (subref_indices_lt i j nrow ncol) hw

theorem adjoint_identity_witness :
    dot (Reshape.fwdMap 2 [1, 2]) [3, 4] = dot [1, 2] (Reshape.adjMap 2 [3, 4]) ∧
    dot (SubRef.fwdMap ⟨1, 3, 1⟩ ⟨0, 2, 1⟩ 4 4
        [0, 1, 2, 3, 4, 5, 6, 7, 8, 9, 10, 11, 12, 13, 14, 15]) [10, 20, 30, 40]
      = dot [0, 1, 2, 3, 4, 5, 6, 7, 8, 9, 10, 11, 12, 13, 14, 15]
          (SubRef.adjMap ⟨1, 3, 1⟩ ⟨0, 2, 1⟩ 4 4 [10, 20, 30, 40]) :=
  adjoint_identity 2 [1, 2] [3, 4] rfl rfl ⟨1, 3, 1⟩ ⟨0, 2, 1⟩ 4 4
    [0, 1, 2, 3, 4, 5, 6, 7, 8, 9, 10, 11, 12, 13, 14, 15] [10, 20, 30, 40]
    (by decide)

/-- Helper: reading a `map` result at an in-range position. -/
theorem getD_map_of_lt {α β : Type} (l : List α) (f : α → β)
    (i : Nat) (dfl : β) (dfl' : α) (h : i < l.length) :
    (l.map f).getD i dfl = f (l.getD i dfl') := by
  rw [List.getD_eq_getElem _ _ (by simpa using h), List.getElem_map,
    List.getD_eq_getElem _ _ h]

/-- C9: every entry of `SubRef`'s output is the dependency entry at the
corresponding selected row and column, which lie inside the addressed
block, so no value from outside the block appears in the output; in
particular, rows [1:3) and columns [0:2) of the dense 4×4 matrix with
entries `4*i+j` give the 2×2 block [[4,5],[8,9]]. -/
theorem subref_subMatrix_spec (m : List (List ℚ)) (i j : Slice) (a b : Nat)
    (ha : a < i.indices.length) (hb : b < j.indices.length) :
    ((SubRef.subMatrix m i j).getD a []).getD b 0
      = (m.getD (i.indices.getD a 0) []).getD (j.indices.getD b 0) 0 ∧
    (i.start ≤ i.indices.getD a 0 ∧ i.indices.getD a 0 < i.stop) ∧
    (j.start ≤ j.indices.getD b 0 ∧ j.indices.getD b 0 < j.stop) ∧
    SubRef.subMatrix [[0, 1, 2, 3], [4, 5, 6, 7], [8, 9, 10, 11], [12, 13, 14, 15]]
        ⟨1, 3, 1⟩ ⟨0, 2, 1⟩ = [[4, 5], [8, 9]] := by
  have hmi : i.indices.getD a 0 ∈ i.indices := by
    rw [List.getD_eq_getElem _ _ ha]
    exact List.getElem_mem ha
  have hmj : j.indices.getD b 0 ∈ j.indices := by
    rw [List.getD_eq_getElem _ _ hb]
    exact List.getElem_mem hb
  have hfi := List.mem_filter.mp hmi
  have hfj := List.mem_filter.mp hmj
  refine ⟨?_, ⟨?_, ?_⟩, ⟨?_, ?_⟩, by decide⟩
  · rw [show SubRef.subMatrix m i j = i.indices.map
        (fun r => j.indices.map (fun c => (m.getD r []).getD c 0)) from rfl]
    rw [getD_map_of_lt i.indices _ a [] 0 ha, getD_map_of_lt j.indices _ b 0 0 hb]
  · exact (by simpa using hfi.2 : _ ∧ _).1
  · exact List.mem_range.mp hfi.1
  · exact (by simpa using hfj.2 : _ ∧ _).1
  · exact List.mem_range.mp hfj.1

theorem subref_subMatrix_spec_witness :
    ((SubRef.subMatrix [[0, 1, 2, 3], [4, 5, 6, 7], [8, 9, 10, 11], [12, 13, 14, 15]]
        ⟨1, 3, 1⟩ ⟨0, 2, 1⟩).getD 0 []).getD 1 0
      = (([[0, 1, 2, 3], [4, 5, 6, 7], [8, 9, 10, 11], [12, 13, 14, 15]] :
          List (List ℚ)).getD ((Slice.mk 1 3 1).indices.getD 0 0) []).getD
          ((Slice.mk 0 2 1).indices.getD 1 0) 0 ∧
    ((Slice.mk 1 3 1).start ≤ (Slice.mk 1 3 1).indices.getD 0 0 ∧
      (Slice.mk 1 3 1).indices.getD 0 0 < (Slice.mk 1 3 1).stop) ∧
    ((Slice.mk 0 2 1).start ≤ (Slice.mk 0 2 1).indices.getD 1 0 ∧
      (Slice.mk 0 2 1).indices.getD 1 0 < (Slice.mk 0 2 1).stop) ∧
    SubRef.subMatrix [[0, 1, 2, 3], [4, 5, 6, 7], [8, 9, 10, 11], [12, 13, 14, 15]]
        ⟨1, 3, 1⟩ ⟨0, 2, 1⟩ = [[4, 5], [8, 9]] :=
  subref_subMatrix_spec [[0, 1, 2, 3], [4, 5, 6, 7], [8, 9, 10, 11], [12, 13, 14, 15]]
    ⟨1, 3, 1⟩ ⟨0, 2, 1⟩ 0 1 (by decide) (by decide)

end Casadi
